import Mathlib

/-!
Shallow embedding of the taskerie repository (Rust) for specification checking.

Namespace `Core` embeds the `taskerie-core` crate:
  model/mod.rs (ParamContext, InterpolatedString), model/task.rs (Task, Param),
  model/action.rs (ArgumentPart), service/action.rs (render_argument_parts),
  service/interpolated_string.rs (InterpolatedString::render) and
  service/mod.rs (run_task, run_action, run_task_from_action, run_command,
  get_all_standalone_task_names).

Namespace `Cli` embeds the `taskerie` binary crate:
  model/action.rs (Target, ArgumentComponent, Argument, Action) and
  service/action_parser.rs (the hand-rolled character state machine).

Strings are modelled at character granularity (the repository only ever
handles them character by character apart from byte-indexed insertion in
`InterpolatedString::render`, which coincides with character indexing on
ASCII data).  External process behaviour (directory lookup, spawned process
output and exit status) is supplied by an explicit oracle (`ProcResult`),
one entry per `run_command` invocation.  Recursive task invocation is
unguarded in the source, so the execution engine takes a fuel parameter;
running out of fuel is a model artifact and never occurs in the theorems
below.
-/

deriving instance DecidableEq for Except

namespace Core

/-- subprocess::ExitStatus. -/
inductive ExitStatus where
  | Exited (code : Nat)
  | Signaled (sig : Nat)
  | Other (code : Int)
  | Undetermined
  deriving DecidableEq, Repr

/-- subprocess::ExitStatus::success: true iff `Exited(0)`. -/
def ExitStatus.success : ExitStatus → Bool
  | .Exited 0 => true
  | _ => false

/-- model/mod.rs: ParamContext { params: IndexMap<String, String> }. -/
structure ParamContext where
  params : List (String × String)
  deriving DecidableEq, Repr

/-- IndexMap::insert: update the value in place if the key exists, else append. -/
def insertIndexMap (l : List (String × String)) (k v : String) : List (String × String) :=
  match l with
  | [] => [(k, v)]
  | (k', v') :: rest => if k' = k then (k, v) :: rest else (k', v') :: insertIndexMap rest k v

/-- ParamContext::has. -/
def ParamContext.has (ctx : ParamContext) (k : String) : Bool :=
  ctx.params.any (fun p => p.1 = k)

/-- ParamContext::set. -/
def ParamContext.set (ctx : ParamContext) (k v : String) : ParamContext :=
  ⟨insertIndexMap ctx.params k v⟩

/-- ParamContext::get. -/
def ParamContext.get (ctx : ParamContext) (k : String) : Option String :=
  (ctx.params.find? (fun p => p.1 = k)).map (fun p => p.2)

/-- model/mod.rs: InterpolatedVariable { name, start }. -/
structure InterpolatedVariable where
  name : String
  start : Nat
  deriving DecidableEq, Repr

/-- model/mod.rs: InterpolatedString { value, parts }. -/
structure InterpolatedString where
  value : String
  parts : List InterpolatedVariable
  deriving DecidableEq, Repr

/-- String::insert_str at a (character) position. -/
def insertStrAt (s : String) (pos : Nat) (v : String) : String :=
  ⟨s.data.take pos ++ v.data ++ s.data.drop pos⟩

/-- The loop body of InterpolatedString::render: insert each part's value at
`start + acc`, accumulating the inserted lengths. -/
def renderParts (ctx : ParamContext) : List InterpolatedVariable → String → Nat → Except String String
  | [], rendered, _ => .ok rendered
  | p :: rest, rendered, acc =>
    match ctx.get p.name with
    | none => .error ("Could not find value for param " ++ p.name ++ " during string interpolation")
    | some v => renderParts ctx rest (insertStrAt rendered (p.start + acc) v) (acc + v.length)

/-- service/interpolated_string.rs: InterpolatedString::render. -/
def InterpolatedString.render (s : InterpolatedString) (ctx : ParamContext) : Except String String :=
  if s.parts.isEmpty then .ok s.value
  else renderParts ctx s.parts s.value 0

/-- model/action.rs: ArgumentPart. -/
inductive ArgumentPart where
  | Literal (s : String)
  | Variable (s : String)
  deriving DecidableEq, Repr

/-- service/action.rs: render_argument_parts_in (buffer passed explicitly). -/
def render_argument_parts_in (parts : List ArgumentPart) (ctx : ParamContext)
    (buffer : String) : Except String String :=
  match parts with
  | [] => .ok buffer
  | .Literal l :: rest => render_argument_parts_in rest ctx (buffer ++ l)
  | .Variable p :: rest =>
    match ctx.get p with
    | some v => render_argument_parts_in rest ctx (buffer ++ v)
    | none => .error ("Param " ++ p ++ " is not defined")

/-- service/action.rs: render_argument_parts. -/
def render_argument_parts (parts : List ArgumentPart) (ctx : ParamContext) :
    Except String String :=
  render_argument_parts_in parts ctx ""

/-- Specification-side rendering: positional concatenation of literal texts
and bound values (compared against `render_argument_parts` in claim C5). -/
def render_spec (ctx : ParamContext) : List ArgumentPart → String
  | [] => ""
  | .Literal l :: rest => l ++ render_spec ctx rest
  | .Variable n :: rest => ((ctx.get n).getD "") ++ render_spec ctx rest

/-- model/task.rs: Param { default: Option<String> }. -/
structure Param where
  default : Option String
  deriving DecidableEq, Repr

/-- Action::TaskCall payload used by service/mod.rs: target name plus ordered
parameter bindings, each an interpolatable value. -/
structure TaskCall where
  name : String
  params : List (String × InterpolatedString)
  deriving DecidableEq, Repr

/-- model action as consumed by service/mod.rs: an external command line or a
call to another task. -/
inductive Action where
  | Command (c : InterpolatedString)
  | TaskCall (t : TaskCall)
  deriving DecidableEq, Repr

/-- model/task.rs: Task. -/
structure Task where
  working_directory : Option InterpolatedString
  actions : List Action
  on_success : List Action
  on_failure : List Action
  params : List (String × Param)
  deriving DecidableEq, Repr

/-- model/task.rs: Task::has_no_default_params. -/
def has_no_default_params (t : Task) : Bool :=
  !t.params.isEmpty && t.params.any (fun p => p.2.default.isNone)

/-- Modelled from the spec: `Task::is_standalone` is called at
service/mod.rs:24 but its definition is not under src/; the spec defines a
task as standalone iff every declared parameter has a default value. -/
def Task.is_standalone (t : Task) : Bool :=
  t.params.all (fun p => p.2.default.isSome)

/-- model/mod.rs: TaskerieContext { tasks: IndexMap<String, Task> }. -/
structure TaskerieContext where
  tasks : List (String × Task)
  deriving DecidableEq, Repr

/-- service/mod.rs: TaskerieContext::get_all_standalone_task_names. -/
def get_all_standalone_task_names (Γ : TaskerieContext) : List String :=
  (Γ.tasks.filter (fun kv => kv.2.is_standalone)).map (fun kv => kv.1)

/-- service/mod.rs: TaskerieContext::get_task_by_name. -/
def get_task_by_name (Γ : TaskerieContext) (name : String) : Option Task :=
  (Γ.tasks.find? (fun kv => kv.1 = name)).map (fun kv => kv.2)

/-- message.rs: ExecutionMessage (the fields used by service/mod.rs). -/
inductive ExecutionMessage where
  | MissingRequiredTaskParameter (parameter_name : String)
  | WorkingDirectoryNotFound (path : String)
  | AboutToRunCommand (command : String) (working_directory : String)
  | CommandOutput (output : String)
  | CommandSucceeded
  | CommandFailed
  deriving DecidableEq, Repr

/-- Oracle for one external `run_command` invocation: whether the requested
working directory canonicalizes, the canonical path, whether the spawn
succeeds, the combined output lines and the exit status. -/
structure ProcResult where
  dirFound : Bool
  canonPath : String
  spawnOk : Bool
  outputs : List String
  exit : ExitStatus
  deriving DecidableEq, Repr

/-- service/mod.rs run_command, lines 126-129: resolve the working directory
template, defaulting to "./". -/
def resolve_working_dir (wd : Option InterpolatedString) (ctx : ParamContext) :
    Except String String :=
  match wd with
  | none => .ok "./"
  | some d => d.render ctx

/-- service/mod.rs: run_command.  Returns the outcome (hard errors as
`.error`), the emitted messages in production order, and the remaining
oracle entries. -/
def run_command (command : InterpolatedString) (wd : Option InterpolatedString)
    (ctx : ParamContext) (procs : List ProcResult) :
    Except String ExitStatus × List ExecutionMessage × List ProcResult :=
  match procs with
  | [] => (.error "model oracle exhausted", [], [])
  | proc :: rest =>
    match resolve_working_dir wd ctx with
    | .error e => (.error e, [], rest)
    | .ok current_dir =>
      if !proc.dirFound then
        (.ok .Undetermined, [.WorkingDirectoryNotFound current_dir], rest)
      else
        match command.render ctx with
        | .error e => (.error e, [], rest)
        | .ok cmd =>
          let pre : List ExecutionMessage := [.AboutToRunCommand cmd proc.canonPath]
          if !proc.spawnOk then (.error "could not spawn shell", pre, rest)
          else
            (.ok proc.exit,
             pre ++ proc.outputs.map .CommandOutput
                 ++ [if proc.exit.success then .CommandSucceeded else .CommandFailed],
             rest)

/-- service/mod.rs run_task, lines 53-65: the parameter-binding loop.  Returns
the updated context and, when a declared parameter is absent with no default,
the first such parameter's name. -/
def bind_params : List (String × Param) → ParamContext → ParamContext × Option String
  | [], ctx => (ctx, none)
  | (name, param) :: rest, ctx =>
    if ctx.has name then bind_params rest ctx
    else
      match param.default with
      | some d => bind_params rest (ctx.set name d)
      | none => (ctx, some name)

/-- The result shape of one task run: outcome (hard errors as `.error`), the
final state of the caller-supplied mutable context, the messages sent, and
the remaining oracle entries. -/
abbrev RunResult :=
  Except String ExitStatus × ParamContext × List ExecutionMessage × List ProcResult

/-- The recursive entry point handed down to actions (run_task applied to one
less fuel). -/
abbrev TaskRunner := Task → ParamContext → List ProcResult → RunResult

/-- service/mod.rs run_task_from_action, lines 112-115: build the callee's
fresh context by rendering each caller-side binding against the caller's
context (loop with accumulator). -/
def build_callee_go (ps : List (String × InterpolatedString)) (ctx : ParamContext)
    (acc : ParamContext) : Except String ParamContext :=
  match ps with
  | [] => .ok acc
  | (param_name, param_value) :: rest =>
    match param_value.render ctx with
    | .error e => .error e
    | .ok r => build_callee_go rest ctx (acc.set param_name r)

/-- The callee context built by run_task_from_action, starting from the empty
context. -/
def build_callee_context (ps : List (String × InterpolatedString))
    (ctx : ParamContext) : Except String ParamContext :=
  build_callee_go ps ctx ⟨[]⟩

/-- service/mod.rs: run_task_from_action.  The callee's own final context is
local and discarded. -/
def run_task_from_action (recur : TaskRunner) (Γ : TaskerieContext) (tc : TaskCall)
    (ctx : ParamContext) (procs : List ProcResult) :
    Except String ExitStatus × List ExecutionMessage × List ProcResult :=
  match get_task_by_name Γ tc.name with
  | none => (.error ("Task " ++ tc.name ++ " is not defined"), [], procs)
  | some task =>
    match build_callee_context tc.params ctx with
    | .error e => (.error e, [], procs)
    | .ok callee =>
      match recur task callee procs with
      | (out, _, msgs, procs') => (out, msgs, procs')

/-- service/mod.rs: run_action. -/
def run_action (recur : TaskRunner) (Γ : TaskerieContext) (action : Action)
    (wd : Option InterpolatedString) (ctx : ParamContext) (procs : List ProcResult) :
    Except String ExitStatus × List ExecutionMessage × List ProcResult :=
  match action with
  | .Command c => run_command c wd ctx procs
  | .TaskCall tc => run_task_from_action recur Γ tc ctx procs

/-- service/mod.rs run_task, lines 67-78: the primary-action loop.  `?`
propagates hard errors; a non-success outcome breaks out of the loop. -/
def run_actions (recur : TaskRunner) (Γ : TaskerieContext) (actions : List Action)
    (wd : Option InterpolatedString) (ctx : ParamContext) (procs : List ProcResult) :
    Except String Unit × List ExecutionMessage × List ProcResult :=
  match actions with
  | [] => (.ok (), [], procs)
  | a :: rest =>
    match run_action recur Γ a wd ctx procs with
    | (.error e, msgs, procs') => (.error e, msgs, procs')
    | (.ok st, msgs, procs') =>
      if st.success then
        match run_actions recur Γ rest wd ctx procs' with
        | (r, msgs2, procs2) => (r, msgs ++ msgs2, procs2)
      else (.ok (), msgs, procs')

/-- service/mod.rs: run_task.  Binds parameters into the caller's mutable
context (returning Undetermined with a missing-parameter message when a
required one is absent), then runs the primary actions in order, stopping at
the first non-success outcome, and finally returns `Exited(0)`. -/
def run_task : Nat → TaskerieContext → Task → ParamContext → List ProcResult → RunResult
  | 0, _, _, ctx, procs => (.error "model fuel exhausted", ctx, [], procs)
  | fuel + 1, Γ, task, ctx, procs =>
    match bind_params task.params ctx with
    | (ctx2, some missing) =>
      (.ok .Undetermined, ctx2, [.MissingRequiredTaskParameter missing], procs)
    | (ctx2, none) =>
      match run_actions (fun t c pr => run_task fuel Γ t c pr) Γ task.actions
          task.working_directory ctx2 procs with
      | (.error e, msgs, procs2) => (.error e, ctx2, msgs, procs2)
      | (.ok _, msgs, procs2) => (.ok (.Exited 0), ctx2, msgs, procs2)

end Core

namespace Cli

/-- taskerie/src/model/action.rs: Target. -/
inductive Target where
  | Task
  | External
  deriving DecidableEq, Repr

/-- taskerie/src/model/action.rs: ArgumentComponent (strings as char lists). -/
inductive ArgumentComponent where
  | Literal (s : List Char)
  | Interpolated (s : List Char)
  deriving DecidableEq, Repr

/-- taskerie/src/model/action.rs: Argument. -/
structure Argument where
  components : List ArgumentComponent
  deriving DecidableEq, Repr

/-- taskerie/src/model/action.rs: Action. -/
structure Action where
  name : List Char
  arguments : List Argument
  target : Target
  deriving DecidableEq, Repr

/-- action_parser.rs: ReadNameState. -/
inductive ReadNameState where
  | Target
  | Name
  | Done
  deriving DecidableEq, Repr

/-- action_parser.rs: ReadArgState. -/
inductive ReadArgState where
  | Literal
  | LiteralGroup
  | Interpolated
  | InterpolatedInGroup
  deriving DecidableEq, Repr

/-- action_parser.rs: ParserState. -/
inductive ParserState where
  | Start
  | ReadName (s : ReadNameState)
  | ReadArg (s : ReadArgState)
  | Done
  deriving DecidableEq, Repr

/-- action_parser.rs: the fields of struct ActionParser. -/
structure ParserSt where
  remainder : List Char
  read_count : Nat
  action : Action
  arg_buf : List Char
  arg_component_buf : List ArgumentComponent
  previous_component : Option ArgumentComponent
  state : ParserState
  deriving DecidableEq, Repr

/-- Iterator::next for ActionParser: increments read_count (even at end of
input) and pops one character. -/
def next (p : ParserSt) : Option Char × ParserSt :=
  match p.remainder with
  | [] => (none, { p with read_count := p.read_count + 1 })
  | c :: rest => (some c, { p with read_count := p.read_count + 1, remainder := rest })

/-- The offset-carrying error of ActionParser::next_err. -/
def errAt (n : Nat) (msg : String) : String :=
  "Error at " ++ toString n ++ ": " ++ msg

/-- action_parser.rs: handle_end_literal_component. -/
def handle_end_literal_component (p : ParserSt) (allow_empty : Bool) : ParserSt :=
  if allow_empty || !p.arg_buf.isEmpty then
    let component := ArgumentComponent.Literal p.arg_buf
    { p with previous_component := some component,
             arg_component_buf := p.arg_component_buf ++ [component],
             arg_buf := [] }
  else p

/-- action_parser.rs: handle_end_interpolation_component. -/
def handle_end_interpolation_component (p : ParserSt) : ParserSt :=
  if !p.arg_buf.isEmpty then
    let component := ArgumentComponent.Interpolated p.arg_buf
    { p with previous_component := some component,
             arg_component_buf := p.arg_component_buf ++ [component],
             arg_buf := [] }
  else p

/-- action_parser.rs: handle_end_arg. -/
def handle_end_arg (p : ParserSt) : ParserSt :=
  if !p.arg_component_buf.isEmpty then
    { p with previous_component := none,
             action := { p.action with
                         arguments := p.action.arguments ++ [⟨p.arg_component_buf⟩] },
             arg_component_buf := [] }
  else p

/-- action_parser.rs: assert_valid_interpolation_start (consumes the character
after the dollar sign and requires an opening brace). -/
def assert_valid_interpolation_start (p : ParserSt) : Except String ParserSt :=
  match next p with
  | (none, p') => .error (errAt p'.read_count "dollar must be followed by open brace")
  | (some c, p') =>
    if c = '{' then .ok p'
    else .error "dollar must be followed by open brace"

/-- action_parser.rs: handle_interpolated, lines 156-173.  A closing brace
with an empty buffer is the "interpolated value cannot be empty" error. -/
def handle_interpolated (p : ParserSt) (from_group : Bool) : Except String ParserSt :=
  match next p with
  | (none, p') => .error (errAt p'.read_count "interpolation must be closed")
  | (some c, p') =>
    if c = '}' then
      if p'.arg_buf.isEmpty then .error "interpolated value cannot be empty"
      else
        let p2 := handle_end_interpolation_component p'
        .ok { p2 with state := if from_group then .ReadArg .LiteralGroup
                               else .ReadArg .Literal }
    else .ok { p' with arg_buf := p'.arg_buf ++ [c] }

/-- action_parser.rs: handle_read_arg. -/
def handle_read_arg (p : ParserSt) (s : ReadArgState) : Except String ParserSt :=
  match s with
  | .Literal =>
    match next p with
    | (some '$', p') =>
      match assert_valid_interpolation_start p' with
      | .error e => .error e
      | .ok p2 =>
        let p3 := handle_end_literal_component p2 false
        .ok { p3 with state := .ReadArg .Interpolated }
    | (some '"', p') => .ok { p' with state := .ReadArg .LiteralGroup }
    | (some c, p') =>
      if c.isWhitespace then .ok (handle_end_arg (handle_end_literal_component p' false))
      else .ok { p' with arg_buf := p'.arg_buf ++ [c] }
    | (none, p') =>
      let p2 := handle_end_arg (handle_end_literal_component p' false)
      .ok { p2 with state := .Done }
  | .LiteralGroup =>
    match next p with
    | (none, p') => .error (errAt p'.read_count "argument group must be closed")
    | (some '"', p') =>
      let p2 := handle_end_arg (handle_end_literal_component p' true)
      match next p2 with
      | (none, p3) => .ok { p3 with state := .ReadArg .Literal }
      | (some c2, p3) =>
        if c2.isWhitespace then .ok { p3 with state := .ReadArg .Literal }
        else .error "literal group must be followed by whitespace"
    | (some '$', p') =>
      match assert_valid_interpolation_start p' with
      | .error e => .error e
      | .ok p2 =>
        let p3 := handle_end_literal_component p2 false
        .ok { p3 with state := .ReadArg .InterpolatedInGroup }
    | (some c, p') => .ok { p' with arg_buf := p'.arg_buf ++ [c] }
  | .Interpolated => handle_interpolated p false
  | .InterpolatedInGroup => handle_interpolated p true

/-- action_parser.rs: handle_read_name, lines 175-199. -/
def handle_read_name (p : ParserSt) (s : ReadNameState) : Except String ParserSt :=
  match s with
  | .Target =>
    match next p with
    | (none, p') => .error (errAt p'.read_count "empty action")
    | (some c, p') =>
      if c = '_' then
        .ok { p' with action := { p'.action with target := .Task },
                      state := .ReadName .Name }
      else
        .ok { p' with action := { p'.action with name := p'.action.name ++ [c] },
                      state := .ReadName .Name }
  | .Name =>
    match next p with
    | (none, p') => .ok { p' with state := .Done }
    | (some c, p') =>
      if c.isWhitespace then .ok { p' with state := .ReadName .Done }
      else .ok { p' with action := { p'.action with name := p'.action.name ++ [c] } }
  | .Done =>
    if p.action.name.isEmpty then .error "Action must have a name"
    else .ok { p with state := .ReadArg .Literal }

/-- action_parser.rs: the parse loop, lines 49-69.  Fuel is a model artifact;
`parse` below always supplies more than the loop can consume. -/
def parseLoop : Nat → ParserSt → Except String Action
  | 0, _ => .error "model fuel exhausted"
  | fuel + 1, p =>
    match p.state with
    | .Start => parseLoop fuel { p with state := .ReadName .Target }
    | .ReadName s =>
      match handle_read_name p s with
      | .error e => .error e
      | .ok p' => parseLoop fuel p'
    | .ReadArg s =>
      match handle_read_arg p s with
      | .error e => .error e
      | .ok p' => parseLoop fuel p'
    | .Done =>
      if !(p.arg_buf.isEmpty && p.arg_component_buf.isEmpty) then .error "Unfinished action"
      else
        match next p with
        | (some c, _) => .error ("Parsing finished with remaining character " ++ String.mk [c])
        | (none, _) => .ok p.action

/-- ActionParser::new. -/
def mkParser (cs : List Char) : ParserSt :=
  ⟨cs, 0, ⟨[], [], .External⟩, [], [], none, .Start⟩

/-- str::trim on a char list. -/
def trimChars (cs : List Char) : List Char :=
  ((cs.dropWhile Char.isWhitespace).reverse.dropWhile Char.isWhitespace).reverse

/-- action_parser.rs: `impl FromStr for Action`, lines 260-269: trim, reject
the empty line, then run the state machine. -/
def parse (s : List Char) : Except String Action :=
  if (trimChars s).isEmpty then .error "Empty action is invalid"
  else parseLoop (2 * (trimChars s).length + 8) (mkParser (trimChars s))

end Cli

/-! ## Helper lemmas -/

namespace Core

theorem string_append_empty (s : String) : s ++ "" = s := by
  cases s with
  | mk d => show String.mk (d ++ []) = String.mk d; rw [List.append_nil]

theorem string_append_assoc (a b c : String) : a ++ b ++ c = a ++ (b ++ c) := by
  cases a with
  | mk da =>
    cases b with
    | mk db =>
      cases c with
      | mk dc => show String.mk (da ++ db ++ dc) = String.mk (da ++ (db ++ dc))
                 rw [List.append_assoc]

theorem find?_insertIndexMap_self (l : List (String × String)) (k v : String) :
    (insertIndexMap l k v).find? (fun p => p.1 = k) = some (k, v) := by
  induction l with
  | nil => simp [insertIndexMap, List.find?]
  | cons hd tl ih =>
    by_cases h : hd.1 = k
    · simp [insertIndexMap, h, List.find?]
    · simp [insertIndexMap, h, List.find?, ih]

theorem find?_insertIndexMap_ne (l : List (String × String)) (k v k' : String)
    (h : k ≠ k') :
    (insertIndexMap l k v).find? (fun p => p.1 = k') = l.find? (fun p => p.1 = k') := by
  induction l with
  | nil => simp [insertIndexMap, List.find?, h]
  | cons hd tl ih =>
    by_cases hh : hd.1 = k
    · simp [insertIndexMap, hh, List.find?, h]
    · simp [insertIndexMap, hh, List.find?, ih]

theorem any_insertIndexMap_self (l : List (String × String)) (k v : String) :
    (insertIndexMap l k v).any (fun p => p.1 = k) = true := by
  induction l with
  | nil => simp [insertIndexMap]
  | cons hd tl ih =>
    by_cases h : hd.1 = k
    · simp [insertIndexMap, h]
    · simp [insertIndexMap, h, ih]

theorem any_insertIndexMap_ne (l : List (String × String)) (k v k' : String)
    (h : k ≠ k') :
    (insertIndexMap l k v).any (fun p => p.1 = k') = l.any (fun p => p.1 = k') := by
  induction l with
  | nil => simp [insertIndexMap, h]
  | cons hd tl ih =>
    by_cases hh : hd.1 = k
    · simp [insertIndexMap, hh, h]
    · simp [insertIndexMap, hh, ih]

theorem insertIndexMap_of_not_has (l : List (String × String)) (k v : String)
    (h : l.any (fun p => p.1 = k) = false) :
    insertIndexMap l k v = l ++ [(k, v)] := by
  induction l with
  | nil => simp [insertIndexMap]
  | cons hd tl ih =>
    simp only [List.any_cons, Bool.or_eq_false_iff] at h
    have h1 : ¬hd.1 = k := by simpa using h.1
    simp [insertIndexMap, h1, ih h.2]

theorem get_set_self (ctx : ParamContext) (k v : String) :
    (ctx.set k v).get k = some v := by
  simp [ParamContext.get, ParamContext.set, find?_insertIndexMap_self]

theorem get_set_ne (ctx : ParamContext) (k v k' : String) (h : k ≠ k') :
    (ctx.set k v).get k' = ctx.get k' := by
  simp [ParamContext.get, ParamContext.set, find?_insertIndexMap_ne _ _ _ _ h]

theorem has_set_self (ctx : ParamContext) (k v : String) :
    (ctx.set k v).has k = true := by
  simp [ParamContext.has, ParamContext.set, any_insertIndexMap_self]

theorem has_set_ne (ctx : ParamContext) (k v k' : String) (h : k ≠ k') :
    (ctx.set k v).has k' = ctx.has k' := by
  simp [ParamContext.has, ParamContext.set, any_insertIndexMap_ne _ _ _ _ h]

theorem set_of_not_has (ctx : ParamContext) (k v : String) (h : ctx.has k = false) :
    (ctx.set k v).params = ctx.params ++ [(k, v)] := by
  simp [ParamContext.set, insertIndexMap_of_not_has _ _ _ h]

theorem has_eq_isSome_get (ctx : ParamContext) (k : String) :
    ctx.has k = (ctx.get k).isSome := by
  rcases ctx with ⟨l⟩
  induction l with
  | nil => simp [ParamContext.has, ParamContext.get, List.find?]
  | cons hd tl ih =>
    by_cases h : hd.1 = k
    · simp [ParamContext.has, ParamContext.get, List.find?, h]
    · simpa [ParamContext.has, ParamContext.get, List.find?, h] using ih

end Core

namespace Core

theorem bind_params_get_of_has (ps : List (String × Param)) :
    ∀ (ctx : ParamContext) (k : String), ctx.has k = true →
      ((bind_params ps ctx).1).get k = ctx.get k := by
  induction ps with
  | nil => intro ctx k _; rfl
  | cons hd tl ih =>
    intro ctx k hk
    rcases hd with ⟨name, param⟩
    by_cases hn : ctx.has name
    · simp [bind_params, hn, ih ctx k hk]
    · rcases hdef : param.default with _ | d
      · simp [bind_params, hn, hdef]
      · have hne : name ≠ k := by
          intro he; rw [he, hk] at hn; exact hn rfl
        have hk' : (ctx.set name d).has k = true := by
          rw [has_set_ne _ _ _ _ hne]; exact hk
        simp [bind_params, hn, hdef, ih (ctx.set name d) k hk', get_set_ne _ _ _ _ hne]

theorem bind_params_has_false (ps : List (String × Param)) :
    ∀ (ctx : ParamContext) (k : String), ctx.has k = true →
      ((bind_params ps ctx).1).has k = true := by
  intro ctx k hk
  rw [has_eq_isSome_get, bind_params_get_of_has ps ctx k hk, ← has_eq_isSome_get]
  exact hk

theorem bind_params_defaults (ps : List (String × Param)) :
    ∀ (ctx : ParamContext),
      (ps.map Prod.fst).Nodup →
      (∀ pr ∈ ps, ctx.has pr.1 = true ∨ pr.2.default.isSome = true) →
      (bind_params ps ctx).2 = none ∧
        ∀ pr ∈ ps, ctx.has pr.1 = false →
          ((bind_params ps ctx).1).get pr.1 = pr.2.default := by
  induction ps with
  | nil => intro ctx _ _; exact ⟨rfl, by simp⟩
  | cons hd tl ih =>
    intro ctx hnd hall
    rcases hd with ⟨name, param⟩
    have hnd' : (tl.map Prod.fst).Nodup := (List.nodup_cons.mp hnd).2
    have hnmem : name ∉ tl.map Prod.fst := (List.nodup_cons.mp hnd).1
    by_cases hn : ctx.has name
    · have hall' : ∀ pr ∈ tl, ctx.has pr.1 = true ∨ pr.2.default.isSome = true :=
        fun pr hm => hall pr (List.mem_cons_of_mem _ hm)
      obtain ⟨h1, h2⟩ := ih ctx hnd' hall'
      refine ⟨by simp [bind_params, hn, h1], ?_⟩
      intro pr hm habs
      rcases List.mem_cons.mp hm with he | hm'
      · exfalso; rw [he] at habs; simp only at habs; rw [hn] at habs; cases habs
      · simp only [bind_params, hn, if_true]
        exact h2 pr hm' habs
    · have hsome : param.default.isSome = true := by
        rcases hall (name, param) (List.mem_cons_self _ _) with h | h
        · exact absurd h hn
        · exact h
      obtain ⟨d, hd⟩ := Option.isSome_iff_exists.mp hsome
      have hstep : bind_params ((name, param) :: tl) ctx = bind_params tl (ctx.set name d) := by
        simp [bind_params, hn, hd]
      have hall' : ∀ pr ∈ tl, (ctx.set name d).has pr.1 = true ∨ pr.2.default.isSome = true := by
        intro pr hm
        rcases hall pr (List.mem_cons_of_mem _ hm) with h | h
        · left
          by_cases he : name = pr.1
          · rw [he]; exact has_set_self _ _ _
          · rw [has_set_ne _ _ _ _ he]; exact h
        · right; exact h
      obtain ⟨h1, h2⟩ := ih (ctx.set name d) hnd' hall'
      rw [hstep]
      refine ⟨h1, ?_⟩
      intro pr hm habs
      rcases List.mem_cons.mp hm with he | hm'
      · rw [he]
        simp only
        rw [bind_params_get_of_has tl (ctx.set name d) name (has_set_self _ _ _),
          get_set_self, hd]
      · have hne : name ≠ pr.1 := by
          intro he2
          apply hnmem
          rw [he2]
          exact List.mem_map_of_mem Prod.fst hm'
        have habs' : (ctx.set name d).has pr.1 = false := by
          rw [has_set_ne _ _ _ _ hne]; exact habs
        exact h2 pr hm' habs'

theorem bind_params_missing (ps : List (String × Param)) :
    ∀ (ctx : ParamContext),
      (ps.map Prod.fst).Nodup →
      (∃ pr ∈ ps, pr.2.default = none ∧ ctx.has pr.1 = false) →
      ∃ ctx2 m, bind_params ps ctx = (ctx2, some m) := by
  induction ps with
  | nil => intro ctx _ hex; simp at hex
  | cons hd tl ih =>
    intro ctx hnd hex
    rcases hd with ⟨name, param⟩
    have hnd' : (tl.map Prod.fst).Nodup := (List.nodup_cons.mp hnd).2
    have hnmem : name ∉ tl.map Prod.fst := (List.nodup_cons.mp hnd).1
    obtain ⟨pr, hm, hdef, habs⟩ := hex
    by_cases hn : ctx.has name
    · have hm' : pr ∈ tl := by
        rcases List.mem_cons.mp hm with he | hm'
        · exfalso; rw [he] at habs; simp only at habs; rw [hn] at habs; cases habs
        · exact hm'
      obtain ⟨ctx2, m, hbind⟩ := ih ctx hnd' ⟨pr, hm', hdef, habs⟩
      exact ⟨ctx2, m, by simp [bind_params, hn, hbind]⟩
    · rcases hdp : param.default with _ | d
      · exact ⟨ctx, name, by simp [bind_params, hn, hdp]⟩
      · have hm' : pr ∈ tl := by
          rcases List.mem_cons.mp hm with he | hm'
          · exfalso; rw [he] at hdef; simp only at hdef; rw [hdp] at hdef; cases hdef
          · exact hm'
        have hne : name ≠ pr.1 := by
          intro he2
          apply hnmem
          rw [he2]
          exact List.mem_map_of_mem Prod.fst hm'
        have habs' : (ctx.set name d).has pr.1 = false := by
          rw [has_set_ne _ _ _ _ hne]; exact habs
        obtain ⟨ctx2, m, hbind⟩ := ih (ctx.set name d) hnd' ⟨pr, hm', hdef, habs'⟩
        exact ⟨ctx2, m, by simp [bind_params, hn, hdp, hbind]⟩

end Core

namespace Core

theorem build_callee_go_spec (ps : List (String × InterpolatedString)) (ctx : ParamContext) :
    ∀ (acc m : ParamContext),
      (ps.map Prod.fst).Nodup →
      (∀ k ∈ ps.map Prod.fst, acc.has k = false) →
      build_callee_go ps ctx acc = .ok m →
      ∃ rs, m.params = acc.params ++ rs ∧
        List.Forall₂
          (fun (p : String × InterpolatedString) (q : String × String) =>
            p.1 = q.1 ∧ p.2.render ctx = .ok q.2) ps rs := by
  induction ps with
  | nil =>
    intro acc m _ _ hb
    simp only [build_callee_go] at hb
    cases hb
    exact ⟨[], by simp, List.Forall₂.nil⟩
  | cons hd tl ih =>
    intro acc m hnd hfresh hb
    rcases hd with ⟨k, v⟩
    have hnd' : (tl.map Prod.fst).Nodup := (List.nodup_cons.mp hnd).2
    have hnmem : k ∉ tl.map Prod.fst := (List.nodup_cons.mp hnd).1
    rcases hr : v.render ctx with e | r
    · simp only [build_callee_go, hr] at hb; cases hb
    · simp only [build_callee_go, hr] at hb
      have hkfresh : acc.has k = false := hfresh k (by simp)
      have hfresh' : ∀ k' ∈ tl.map Prod.fst, (acc.set k r).has k' = false := by
        intro k' hm
        have hne : k ≠ k' := by
          intro he; rw [he] at hnmem; exact hnmem hm
        rw [has_set_ne _ _ _ _ hne]
        exact hfresh k' (List.mem_cons_of_mem _ hm)
      obtain ⟨rs, hmp, hf⟩ := ih (acc.set k r) m hnd' hfresh' hb
      refine ⟨(k, r) :: rs, ?_, List.Forall₂.cons ⟨rfl, hr⟩ hf⟩
      rw [hmp, set_of_not_has _ _ _ hkfresh, List.append_assoc]
      rfl

theorem forall₂_keys_absent {α β : Type}
    {r : (String × α) → (String × β) → Prop}
    (hr : ∀ p q, r p q → p.1 = q.1)
    {ps : List (String × α)} {rs : List (String × β)}
    (hf : List.Forall₂ r ps rs)
    (k : String) (hk : ∀ pr ∈ ps, pr.1 ≠ k) :
    rs.any (fun p => p.1 = k) = false := by
  induction hf with
  | nil => rfl
  | @cons a b l1 l2 h _ ih =>
    simp only [List.any_cons, Bool.or_eq_false_iff]
    constructor
    · have ha : a.1 ≠ k := hk a (List.mem_cons_self _ _)
      rw [← hr a b h]
      simpa using ha
    · exact ih (fun pr hm => hk pr (List.mem_cons_of_mem _ hm))

theorem render_in_ok (parts : List ArgumentPart) (ctx : ParamContext) :
    ∀ (b : String),
      (∀ n, ArgumentPart.Variable n ∈ parts → (ctx.get n).isSome = true) →
      render_argument_parts_in parts ctx b = .ok (b ++ render_spec ctx parts) := by
  induction parts with
  | nil => intro b _; rw [render_spec, string_append_empty]; rfl
  | cons hd tl ih =>
    intro b hall
    rcases hd with l | n
    · rw [render_argument_parts_in, render_spec,
        ih (b ++ l) (fun n hm => hall n (List.mem_cons_of_mem _ hm)), string_append_assoc]
    · have hsome := hall n (List.mem_cons_self _ _)
      obtain ⟨v, hv⟩ := Option.isSome_iff_exists.mp hsome
      simp only [render_argument_parts_in, hv, render_spec, Option.getD_some]
      rw [ih (b ++ v) (fun n hm => hall n (List.mem_cons_of_mem _ hm)), string_append_assoc]

theorem render_in_error (parts : List ArgumentPart) (ctx : ParamContext) :
    ∀ (b : String),
      (∃ n, ArgumentPart.Variable n ∈ parts ∧ ctx.get n = none) →
      ∃ e, render_argument_parts_in parts ctx b = .error e := by
  induction parts with
  | nil => intro b hex; simp at hex
  | cons hd tl ih =>
    intro b hex
    obtain ⟨n, hm, hn⟩ := hex
    rcases hd with l | v
    · rcases List.mem_cons.mp hm with he | hm'
      · cases he
      · exact ih (b ++ l) ⟨n, hm', hn⟩
    · rcases hv : ctx.get v with _ | w
      · refine ⟨"Param " ++ v ++ " is not defined", ?_⟩
        simp only [render_argument_parts_in, hv]
      · have hm' : ArgumentPart.Variable n ∈ tl := by
          rcases List.mem_cons.mp hm with he | hm'
          · exfalso
            have hnv : n = v := by cases he; rfl
            rw [hnv, hv] at hn
            cases hn
          · exact hm'
        simp only [render_argument_parts_in, hv]
        exact ih (b ++ w) ⟨n, hm', hn⟩

/-- The mutable-context component of a completed run is exactly the context
produced by the parameter-binding phase. -/
theorem run_task_ctx_eq (fuel : Nat) (Γ : TaskerieContext) (task : Task)
    (ctx : ParamContext) (procs : List ProcResult) :
    (run_task (fuel + 1) Γ task ctx procs).2.1 = (bind_params task.params ctx).1 := by
  rw [run_task]
  rcases hbp : bind_params task.params ctx with ⟨c2, miss⟩
  rcases miss with _ | m
  · rcases hra : run_actions (fun t c pr => run_task fuel Γ t c pr) Γ task.actions
      task.working_directory c2 procs with ⟨r, msgs, procs2⟩
    rcases r with e | u <;> simp [hra]
  · simp

end Core

namespace Core

theorem string_empty_append (s : String) : "" ++ s = s := by
  cases s with
  | mk d => rfl

theorem nodup_keys_unique {β : Type} (l : List (String × β))
    (h : (l.map Prod.fst).Nodup) {k : String} {a b : β}
    (ha : (k, a) ∈ l) (hb : (k, b) ∈ l) : a = b := by
  induction l with
  | nil => cases ha
  | cons hd tl ih =>
    rw [List.map_cons] at h
    obtain ⟨hnm, hnd'⟩ := List.nodup_cons.mp h
    rcases List.mem_cons.mp ha with hea | hta
    · rcases List.mem_cons.mp hb with heb | htb
      · have := hea.trans heb.symm
        exact congrArg Prod.snd this
      · exfalso
        apply hnm
        rw [← hea]
        simpa using List.mem_map_of_mem Prod.fst htb
    · rcases List.mem_cons.mp hb with heb | htb
      · exfalso
        apply hnm
        rw [← heb]
        simpa using List.mem_map_of_mem Prod.fst hta
      · exact ih hnd' hta htb

theorem mem_standalone_names_iff (Γ : TaskerieContext) (n : String) :
    n ∈ get_all_standalone_task_names Γ ↔
      ∃ t, (n, t) ∈ Γ.tasks ∧ ∀ pr ∈ t.params, pr.2.default.isSome = true := by
  constructor
  · intro hm
    rw [get_all_standalone_task_names] at hm
    obtain ⟨kv, hkv, he⟩ := List.mem_map.mp hm
    obtain ⟨hmem, hstand⟩ := List.mem_filter.mp hkv
    refine ⟨kv.2, ?_, ?_⟩
    · rw [← he]
      simpa using hmem
    · intro pr hpr
      exact List.all_eq_true.mp hstand pr hpr
  · rintro ⟨t, hmem, hall⟩
    rw [get_all_standalone_task_names]
    apply List.mem_map.mpr
    refine ⟨(n, t), List.mem_filter.mpr ⟨hmem, ?_⟩, rfl⟩
    exact List.all_eq_true.mpr hall

/-- The spec-modelled `is_standalone` is exactly the negation of the
in-source `has_no_default_params`. -/
theorem is_standalone_eq_not_has_no_default (t : Task) :
    t.is_standalone = !has_no_default_params t := by
  rcases t with ⟨wd, a, s, f, ps⟩
  rw [Task.is_standalone, has_no_default_params]
  induction ps with
  | nil => rfl
  | cons hd tl ih =>
    rcases hdf : hd.2.default with _ | d <;>
      simp_all [List.all_cons, List.any_cons, hdf, Option.isNone, Option.isSome]

end Core

open Core in
/-- Claim C5: `render` fails with an unbound-variable error iff some
`Variable` component's name is absent from the context; when every variable
is bound it returns the positional concatenation of the literal texts and
the bound values (so a missing variable is never silently rendered as the
empty string). -/
theorem C5_render_iff_and_concat (parts : List ArgumentPart) (ctx : ParamContext) :
    ((∃ e, render_argument_parts parts ctx = .error e) ↔
      ∃ n, ArgumentPart.Variable n ∈ parts ∧ ctx.get n = none) ∧
    ((∀ n, ArgumentPart.Variable n ∈ parts → (ctx.get n).isSome = true) →
      render_argument_parts parts ctx = .ok (render_spec ctx parts)) := by
  constructor
  · constructor
    · intro hex
      by_contra hno
      push_neg at hno
      have hall : ∀ n, ArgumentPart.Variable n ∈ parts → (ctx.get n).isSome = true := by
        intro n hm
        rcases hg : ctx.get n with _ | v
        · exact absurd hg (hno n hm)
        · rfl
      obtain ⟨e, he⟩ := hex
      rw [render_argument_parts, render_in_ok parts ctx "" hall] at he
      cases he
    · intro hex
      exact render_in_error parts ctx "" hex
  · intro hall
    rw [render_argument_parts, render_in_ok parts ctx "" hall, string_empty_append]

open Core in
/-- Witness for C5 at the spec's example: rendering
`[Literal "a", Variable "x", Literal "b"]` with `x` bound to `"Z"` yields
`"aZb"`. -/
theorem C5_witness :
    render_argument_parts
      [ArgumentPart.Literal "a", ArgumentPart.Variable "x", ArgumentPart.Literal "b"]
      ⟨[("x", "Z")]⟩ = .ok "aZb" := by
  have h := (C5_render_iff_and_concat
    [ArgumentPart.Literal "a", ArgumentPart.Variable "x", ArgumentPart.Literal "b"]
    ⟨[("x", "Z")]⟩).2 (by intro n hm; simp at hm; subst hm; rfl)
  exact h.trans (by decide)

open Core in
/-- Claim C9: `get_all_standalone_task_names` returns exactly the names of
the registry's tasks in which every declared parameter has a default
(including parameterless tasks), in registry order (a sublist of the full
name sequence); a task with a defaultless parameter is never listed. -/
theorem C9_standalone_names (Γ : TaskerieContext) :
    List.Sublist (get_all_standalone_task_names Γ) (Γ.tasks.map Prod.fst) ∧
    (∀ n, n ∈ get_all_standalone_task_names Γ ↔
      ∃ t, (n, t) ∈ Γ.tasks ∧ ∀ pr ∈ t.params, pr.2.default.isSome = true) ∧
    (∀ n t, (Γ.tasks.map Prod.fst).Nodup → (n, t) ∈ Γ.tasks →
      (∃ pr ∈ t.params, pr.2.default = none) →
      n ∉ get_all_standalone_task_names Γ) := by
  refine ⟨(List.filter_sublist _).map _, mem_standalone_names_iff Γ, ?_⟩
  intro n t hnd hmem hex hcontra
  obtain ⟨t', hmem', hall'⟩ := (mem_standalone_names_iff Γ n).mp hcontra
  have ht : t' = t := nodup_keys_unique Γ.tasks hnd hmem' hmem
  obtain ⟨pr, hpr, hnone⟩ := hex
  have := hall' pr (ht ▸ hpr)
  rw [hnone] at this
  cases this

open Core in
/-- Witness for C9: in a registry holding a task with a required (defaultless)
parameter and one whose single parameter has a default, only the latter is
listed. -/
theorem C9_witness :
    "t1" ∉ get_all_standalone_task_names
      ⟨[("t1", ⟨none, [], [], [], [("p", ⟨none⟩)]⟩),
        ("t2", ⟨none, [], [], [], [("q", ⟨some "d"⟩)]⟩)]⟩ := by
  refine (C9_standalone_names
    ⟨[("t1", ⟨none, [], [], [], [("p", ⟨none⟩)]⟩),
      ("t2", ⟨none, [], [], [], [("q", ⟨some "d"⟩)]⟩)]⟩).2.2 "t1"
    ⟨none, [], [], [], [("p", ⟨none⟩)]⟩ (by decide) (by decide)
    ⟨("p", ⟨none⟩), by decide⟩

open Core in
/-- Claim C3: running a task that declares a defaultless parameter not bound
by the context returns the Undetermined outcome and sends exactly one
required-parameter-missing message — in particular zero about-to-run-command
messages are sent, no action (hence no hook action) runs, and the oracle is
untouched.  The Nodup hypothesis reflects that declared parameter names are
IndexMap keys, hence pairwise distinct. -/
theorem C3_missing_required_param (fuel : Nat) (Γ : TaskerieContext) (task : Task)
    (ctx : ParamContext) (procs : List ProcResult)
    (hnd : (task.params.map Prod.fst).Nodup)
    (hex : ∃ pr ∈ task.params, pr.2.default = none ∧ ctx.has pr.1 = false) :
    ∃ ctx2 m, run_task (fuel + 1) Γ task ctx procs =
      (.ok .Undetermined, ctx2, [.MissingRequiredTaskParameter m], procs) := by
  obtain ⟨ctx2, m, hbind⟩ := bind_params_missing task.params ctx hnd hex
  exact ⟨ctx2, m, by simp [run_task, hbind]⟩

open Core in
/-- Witness for C3: a task with required parameter `p` run under the empty
context. -/
theorem C3_witness :
    ∃ ctx2 m, run_task 1 ⟨[]⟩ ⟨none, [.Command ⟨"x", []⟩], [], [], [("p", ⟨none⟩)]⟩
        ⟨[]⟩ [⟨true, "/w", true, [], .Exited 0⟩] =
      (.ok .Undetermined, ctx2, [.MissingRequiredTaskParameter m],
        [⟨true, "/w", true, [], .Exited 0⟩]) :=
  C3_missing_required_param 0 ⟨[]⟩ ⟨none, [.Command ⟨"x", []⟩], [], [], [("p", ⟨none⟩)]⟩
    ⟨[]⟩ [⟨true, "/w", true, [], .Exited 0⟩] (by decide) ⟨("p", ⟨none⟩), by decide⟩

open Core in
/-- Counterexample for C10 as stated: with declared parameters
`p` (no default) and `q` (default `"d"`) and an empty caller context, the run
returns early at `p` and the caller's context does not gain `q`'s default,
although `q` is a declared parameter absent from the context whose default
the claim says is inserted. -/
theorem C10_counterexample :
    ((run_task 1 ⟨[]⟩ ⟨none, [], [], [], [("p", ⟨none⟩), ("q", ⟨some "d"⟩)]⟩
        ⟨[]⟩ []).2.1).has "q" = false ∧
    ("q", Param.mk (some "d")) ∈
      Task.params ⟨none, [], [], [], [("p", ⟨none⟩), ("q", ⟨some "d"⟩)]⟩ ∧
    (ParamContext.mk []).has "q" = false := by decide

open Core in
/-- Claim C10 (amended): run_task mutates the caller's context in place;
bindings already present are never changed, and when every declared
parameter is present or has a default (so the binding phase completes),
every absent declared parameter has gained its default after the run. -/
theorem C10_context_frame (fuel : Nat) (Γ : TaskerieContext) (task : Task)
    (ctx : ParamContext) (procs : List ProcResult) :
    (∀ k, ctx.has k = true →
      ((run_task (fuel + 1) Γ task ctx procs).2.1).get k = ctx.get k) ∧
    ((task.params.map Prod.fst).Nodup →
      (∀ pr ∈ task.params, ctx.has pr.1 = true ∨ pr.2.default.isSome = true) →
      ∀ pr ∈ task.params, ctx.has pr.1 = false →
        ((run_task (fuel + 1) Γ task ctx procs).2.1).get pr.1 = pr.2.default) := by
  rw [run_task_ctx_eq]
  constructor
  · intro k hk
    exact bind_params_get_of_has task.params ctx k hk
  · intro hnd hall
    exact (bind_params_defaults task.params ctx hnd hall).2

open Core in
/-- Witness for C10 (amended): the absent parameter `q` gains its default
`"d"` while the pre-existing binding `a = "1"` is untouched. -/
theorem C10_witness :
    ((run_task 1 ⟨[]⟩ ⟨none, [], [], [], [("q", ⟨some "d"⟩)]⟩
        ⟨[("a", "1")]⟩ []).2.1).get "q" = some "d" ∧
    ((run_task 1 ⟨[]⟩ ⟨none, [], [], [], [("q", ⟨some "d"⟩)]⟩
        ⟨[("a", "1")]⟩ []).2.1).get "a" = some "1" := by
  constructor
  · exact (C10_context_frame 0 ⟨[]⟩ ⟨none, [], [], [], [("q", ⟨some "d"⟩)]⟩
      ⟨[("a", "1")]⟩ []).2 (by decide) (by decide) ("q", ⟨some "d"⟩) (by decide) (by decide)
  · exact ((C10_context_frame 0 ⟨[]⟩ ⟨none, [], [], [], [("q", ⟨some "d"⟩)]⟩
      ⟨[("a", "1")]⟩ []).1 "a" (by decide)).trans (by decide)

open Core in
/-- Counterexample for C1 as stated: a task whose single primary action exits
with status 1 (non-success, as the first conjunct shows the action's own
outcome to be) still gets outcome `Exited 0` (success) from run_task, not
the outcome of the last executed primary action. -/
theorem C1_counterexample :
    (run_action (fun t c pr => run_task 1 ⟨[]⟩ t c pr) ⟨[]⟩ (.Command ⟨"x", []⟩)
        none ⟨[]⟩ [⟨true, "/w", true, [], .Exited 1⟩]).1 = .ok (.Exited 1) ∧
    (run_task 2 ⟨[]⟩ ⟨none, [.Command ⟨"x", []⟩], [], [], []⟩ ⟨[]⟩
        [⟨true, "/w", true, [], .Exited 1⟩]).1 = .ok (.Exited 0) ∧
    ExitStatus.success (.Exited 1) = false := by decide

open Core in
/-- Claim C1 (amended): whenever parameter binding completes and the
primary-action loop finishes without a hard error, run_task returns
`Exited 0` — irrespective of the executed actions' outcomes (a non-success
outcome only stops the remaining actions); in particular an empty action
list yields `Exited 0`. -/
theorem C1_run_task_outcome (fuel : Nat) (Γ : TaskerieContext) (task : Task)
    (ctx : ParamContext) (procs : List ProcResult)
    (hbind : (bind_params task.params ctx).2 = none)
    (hrun : (run_actions (fun t c pr => run_task fuel Γ t c pr) Γ task.actions
        task.working_directory (bind_params task.params ctx).1 procs).1 = .ok ()) :
    (run_task (fuel + 1) Γ task ctx procs).1 = .ok (.Exited 0) := by
  rcases hbp : bind_params task.params ctx with ⟨c2, miss⟩
  rw [hbp] at hbind hrun
  simp only at hbind hrun
  subst hbind
  simp only [run_task, hbp]
  rcases hra : run_actions (fun t c pr => run_task fuel Γ t c pr) Γ task.actions
      task.working_directory c2 procs with ⟨r, msgs, procs2⟩
  rw [hra] at hrun
  simp only at hrun
  subst hrun
  simp

open Core in
/-- Witness for C1 (amended), at a task whose single command fails. -/
theorem C1_witness :
    (run_task 2 ⟨[]⟩ ⟨none, [.Command ⟨"x", []⟩], [], [], []⟩ ⟨[]⟩
        [⟨true, "/w", true, ["o"], .Exited 7⟩]).1 = .ok (.Exited 0) :=
  C1_run_task_outcome 1 ⟨[]⟩ ⟨none, [.Command ⟨"x", []⟩], [], [], []⟩ ⟨[]⟩
    [⟨true, "/w", true, ["o"], .Exited 7⟩] (by decide) (by decide)

open Core in
/-- Counterexample for C2 as stated: a task whose single primary action fails
and whose on_failure list holds a command runs no on_failure action at all —
the trace holds only the failing command's messages and the hook command's
oracle entry is left unconsumed. -/
theorem C2_counterexample :
    run_task 2 ⟨[]⟩
      ⟨none, [.Command ⟨"x", []⟩], [.Command ⟨"s", []⟩], [.Command ⟨"f", []⟩], []⟩
      ⟨[]⟩ [⟨true, "/w", true, ["o"], .Exited 1⟩, ⟨true, "/w", true, [], .Exited 0⟩] =
    (.ok (.Exited 0), ⟨[]⟩,
      [.AboutToRunCommand "x" "/w", .CommandOutput "o", .CommandFailed],
      [⟨true, "/w", true, [], .Exited 0⟩]) := by decide

open Core in
/-- Claim C2 (amended): run_task never executes hook actions — its entire
result is independent of the task's on_success and on_failure lists. -/
theorem C2_hooks_never_run (fuel : Nat) (Γ : TaskerieContext)
    (wd : Option InterpolatedString) (acts sa fa sb fb : List Action)
    (ps : List (String × Param)) (ctx : ParamContext) (procs : List ProcResult) :
    run_task fuel Γ ⟨wd, acts, sa, fa, ps⟩ ctx procs =
      run_task fuel Γ ⟨wd, acts, sb, fb, ps⟩ ctx procs := by
  cases fuel with
  | zero => rfl
  | succ n => rfl

open Core in
/-- Claim C4: a TaskCall action runs the callee on a context holding exactly
the call's parameter bindings rendered against the caller's context: the
callee context's entries correspond pairwise to the bindings (same keys, in
order, values rendered against the caller's context), and any name not among
the bindings — in particular any other binding of the caller — is absent. -/
theorem C4_task_call_isolated_context (recur : TaskRunner) (Γ : TaskerieContext)
    (tc : TaskCall) (ctx : ParamContext) (procs : List ProcResult)
    (task : Task) (m : ParamContext)
    (htask : get_task_by_name Γ tc.name = some task)
    (hnd : (tc.params.map Prod.fst).Nodup)
    (hbuild : build_callee_context tc.params ctx = .ok m) :
    run_task_from_action recur Γ tc ctx procs =
      ((recur task m procs).1, (recur task m procs).2.2.1, (recur task m procs).2.2.2) ∧
    List.Forall₂
      (fun (p : String × InterpolatedString) (q : String × String) =>
        p.1 = q.1 ∧ p.2.render ctx = .ok q.2) tc.params m.params ∧
    (∀ k, (∀ pr ∈ tc.params, pr.1 ≠ k) → m.has k = false) := by
  have hfresh : ∀ k ∈ tc.params.map Prod.fst, (ParamContext.mk []).has k = false := by
    intro k _
    rfl
  obtain ⟨rs, hmp, hf⟩ := build_callee_go_spec tc.params ctx ⟨[]⟩ m hnd hfresh hbuild
  have hmp' : m.params = rs := by simpa using hmp
  refine ⟨?_, ?_, ?_⟩
  · simp only [run_task_from_action, htask, hbuild]
  · rw [hmp']
    exact hf
  · intro k hk
    rw [ParamContext.has, hmp']
    exact forall₂_keys_absent (fun p q h => h.1) hf k hk

open Core in
/-- Witness for C4: the caller's binding `secret` is absent from the callee
context built for a call passing only `p`. -/
theorem C4_witness :
    (ParamContext.mk [("p", "V")]).has "secret" = false :=
  (C4_task_call_isolated_context
    (fun t c pr => run_task 1 ⟨[("t", ⟨none, [], [], [], []⟩)]⟩ t c pr)
    ⟨[("t", ⟨none, [], [], [], []⟩)]⟩ ⟨"t", [("p", ⟨"V", []⟩)]⟩
    ⟨[("secret", "s")]⟩ [] ⟨none, [], [], [], []⟩ ⟨[("p", "V")]⟩
    (by decide) (by decide) (by decide)).2.2 "secret" (by decide)

open Core in
/-- Claim C6: for a task whose primary actions are two sequential commands,
the emitted trace is exactly: command 1's about-to-run-command message, then
all of command 1's output messages, then its command-succeeded or
command-failed message, then (only when command 1 succeeded) command 2's
about-to-run-command message followed by command 2's outputs and result —
so every output of command 1 sits strictly between command 1's about message
and its result message, which precedes command 2's about message. -/
theorem C6_two_command_trace (fuel : Nat) (Γ : TaskerieContext) (task : Task)
    (ctx : ParamContext) (c1 c2 : InterpolatedString) (d s1 s2 : String)
    (p1 p2 : ProcResult) (procs : List ProcResult)
    (hacts : task.actions = [.Command c1, .Command c2])
    (hbind : (bind_params task.params ctx).2 = none)
    (hwd : resolve_working_dir task.working_directory
      (bind_params task.params ctx).1 = .ok d)
    (hr1 : c1.render (bind_params task.params ctx).1 = .ok s1)
    (hr2 : c2.render (bind_params task.params ctx).1 = .ok s2)
    (hd1 : p1.dirFound = true) (hs1 : p1.spawnOk = true)
    (hd2 : p2.dirFound = true) (hs2 : p2.spawnOk = true) :
    (run_task (fuel + 1) Γ task ctx (p1 :: p2 :: procs)).2.2.1 =
      .AboutToRunCommand s1 p1.canonPath ::
        (p1.outputs.map .CommandOutput ++
          ((if p1.exit.success then .CommandSucceeded else .CommandFailed) ::
            (if p1.exit.success then
              .AboutToRunCommand s2 p2.canonPath ::
                (p2.outputs.map .CommandOutput ++
                  [if p2.exit.success then .CommandSucceeded else .CommandFailed])
            else []))) := by
  rcases hbp : bind_params task.params ctx with ⟨cc, miss⟩
  rw [hbp] at hbind hwd hr1 hr2
  simp only at hbind
  subst hbind
  simp only [run_task, hbp, hacts, run_actions, run_action, run_command, hwd,
    hd1, hs1, hd2, hs2, hr1, hr2, Bool.not_true, Bool.false_eq_true, if_false]
  cases hsucc : p1.exit.success <;>
    cases hsucc2 : p2.exit.success <;>
      simp [hsucc, hsucc2]

open Core in
/-- Witness for C6: two commands, the first succeeding with two output lines,
the second failing with one. -/
theorem C6_witness :
    (run_task 1 ⟨[]⟩ ⟨none, [.Command ⟨"a", []⟩, .Command ⟨"b", []⟩], [], [], []⟩ ⟨[]⟩
      [⟨true, "/w", true, ["o1", "o2"], .Exited 0⟩, ⟨true, "/v", true, ["z"], .Exited 3⟩]).2.2.1 =
    [.AboutToRunCommand "a" "/w", .CommandOutput "o1", .CommandOutput "o2",
     .CommandSucceeded, .AboutToRunCommand "b" "/v", .CommandOutput "z",
     .CommandFailed] :=
  (C6_two_command_trace 0 ⟨[]⟩ ⟨none, [.Command ⟨"a", []⟩, .Command ⟨"b", []⟩], [], [], []⟩
    ⟨[]⟩ ⟨"a", []⟩ ⟨"b", []⟩ "./" "a" "b"
    ⟨true, "/w", true, ["o1", "o2"], .Exited 0⟩ ⟨true, "/v", true, ["z"], .Exited 3⟩ []
    rfl (by decide) (by decide) (by decide) (by decide)
    (by decide) (by decide) (by decide) (by decide)).trans (by decide)

open Cli in
/-- Counterexample for C8 as stated: the line consisting of only the leading
task-marker character parses successfully — to a task-call Action whose name
is the empty string — instead of failing with an empty-name error. -/
theorem C8_counterexample :
    Cli.parse ['_'] = .ok ⟨[], [], .Task⟩ := by decide

open Cli in
/-- Claim C8 (amended): a line whose empty name token is terminated by
whitespace fails with the empty-name error; but when the trimmed line is
exactly the marker character the name token is ended by the end of input,
the emptiness check is skipped, and parse returns an Action whose name is
the empty string (see the counterexample). -/
theorem C8_empty_name_error (s : List Char) (c : Char) (rest : List Char)
    (h : Cli.trimChars s = '_' :: c :: rest) (hc : c.isWhitespace = true) :
    Cli.parse s = .error "Action must have a name" := by
  rw [Cli.parse]
  rw [h]
  simp only [List.isEmpty_cons, Bool.false_eq_true, if_false]
  simp [Cli.parseLoop, Cli.mkParser, Cli.handle_read_name, Cli.next, hc]

namespace Cli

/-- Scanning the name: in state `ReadName Name`, a run of non-whitespace
characters is consumed one per loop iteration, appended to the action name. -/
theorem parseLoop_scan_name (cs : List Char) :
    ∀ (n : Nat) (p : ParserSt) (ds : List Char),
      p.state = .ReadName .Name → p.remainder = cs ++ ds →
      (∀ ch ∈ cs, ch.isWhitespace = false) →
      parseLoop (cs.length + n) p =
        parseLoop n
          { p with remainder := ds,
                   read_count := p.read_count + cs.length,
                   action := { p.action with name := p.action.name ++ cs } } := by
  induction cs with
  | nil =>
    intro n p ds h1 h2 h3
    rcases p with ⟨rem, rc, ⟨anm, aar, atg⟩, ab, acb, pc, st⟩
    simp only [List.nil_append] at h2
    subst h2
    simp
  | cons ch cs ih =>
    intro n p ds h1 h2 h3
    have hw : ch.isWhitespace = false := h3 ch (List.mem_cons_self _ _)
    rcases p with ⟨rem, rc, ⟨anm, aar, atg⟩, ab, acb, pc, st⟩
    simp only at h1 h2
    subst h1
    subst h2
    have hlen : (ch :: cs).length + n = (cs.length + n) + 1 := by
      simp only [List.length_cons]
      omega
    rw [hlen]
    simp only [parseLoop, handle_read_name, next, hw, Bool.false_eq_true, if_false,
      List.cons_append]
    rw [ih n ⟨cs ++ ds, rc + 1, ⟨anm ++ [ch], aar, atg⟩, ab, acb, pc,
        .ReadName .Name⟩ ds rfl rfl (fun x hx => h3 x (List.mem_cons_of_mem _ hx))]
    refine congrArg (parseLoop n) ?_
    simp only [ParserSt.mk.injEq, Action.mk.injEq, List.append_assoc,
      List.singleton_append, List.cons_append, List.length_cons, and_true, true_and]
    constructor
    · omega
    · simp

end Cli

namespace Cli

/-- After the name phase: from state `ReadName Name` with a whitespace
character followed by the span dollar-brace-brace and a non-empty buffered
name, the machine terminates the name, enters argument reading, consumes the
dollar and opening brace, and rejects the empty interpolation at the closing
brace. -/
theorem parseLoop_after_name (n : Nat) (p : ParserSt) (c : Char) (suffix : List Char)
    (hstate : p.state = .ReadName .Name)
    (hrem : p.remainder = c :: '$' :: '{' :: '}' :: suffix)
    (hc : c.isWhitespace = true)
    (hbuf : p.arg_buf = [])
    (hname : p.action.name.isEmpty = false) :
    parseLoop (n + 4) p = .error "interpolated value cannot be empty" := by
  rcases p with ⟨rem, rc, ⟨anm, aar, atg⟩, ab, acb, pc, st⟩
  simp only at hstate hrem hbuf hname
  subst hstate
  subst hrem
  subst hbuf
  simp [parseLoop, handle_read_name, handle_read_arg, handle_interpolated,
    assert_valid_interpolation_start, handle_end_literal_component, next, hc, hname]

end Cli

open Cli in
/-- Counterexample for C7 as stated: a line containing the interpolation span
with an empty variable name is rejected with "interpolated value cannot be
empty", not accepted. -/
theorem C7_counterexample :
    Cli.parse ("my_action $".toList ++ ['{', '}']) =
      .error "interpolated value cannot be empty" := by decide

namespace Cli

/-- The first two loop iterations on a marker-headed line: Start moves to the
name phase, and the marker character selects a task-call target. -/
theorem parseLoop_start_marker (n : Nat) (cs : List Char) :
    parseLoop ((n + 1) + 1) (mkParser ('_' :: cs)) =
      parseLoop n ⟨cs, 1, ⟨[], [], .Task⟩, [], [], none, .ReadName .Name⟩ := by
  simp [parseLoop, mkParser, handle_read_name, next]

/-- The first two loop iterations on a line headed by a non-marker character:
Start moves to the name phase, and the character begins the name. -/
theorem parseLoop_start_other (n : Nat) (a : Char) (cs : List Char)
    (ha : ¬a = '_') :
    parseLoop ((n + 1) + 1) (mkParser (a :: cs)) =
      parseLoop n ⟨cs, 1, ⟨[a], [], .External⟩, [], [], none, .ReadName .Name⟩ := by
  simp [parseLoop, mkParser, handle_read_name, next, ha]

end Cli

open Cli in
/-- Claim C7 (amended): an interpolation span's variable name must be
non-empty — every line made of a name token (not just the bare marker)
followed by whitespace and the span dollar-open-brace-close-brace fails to
parse with the empty-interpolation error. -/
theorem C7_empty_interpolation_rejected (s nm : List Char) (c : Char)
    (suffix : List Char)
    (h : Cli.trimChars s = nm ++ c :: '$' :: '{' :: '}' :: suffix)
    (hnm : ∀ ch ∈ nm, ch.isWhitespace = false)
    (hc : c.isWhitespace = true)
    (hne : nm ≠ []) (hmark : nm ≠ ['_']) :
    Cli.parse s = .error "interpolated value cannot be empty" := by
  rcases nm with _ | ⟨a, nmt⟩
  · exact absurd rfl hne
  rw [Cli.parse, h]
  simp only [List.cons_append, List.isEmpty_cons, Bool.false_eq_true, if_false]
  have hlen : 2 * (a :: (nmt ++ c :: '$' :: '{' :: '}' :: suffix)).length + 8 =
      ((nmt.length + (nmt.length + 2 * suffix.length + 16)) + 1) + 1 := by
    simp [List.length_cons, List.length_append]
    omega
  rw [hlen]
  have hrest : ∀ ch ∈ nmt, ch.isWhitespace = false :=
    fun x hx => hnm x (List.mem_cons_of_mem _ hx)
  by_cases ha : a = '_'
  · subst ha
    rw [Cli.parseLoop_start_marker (nmt.length + (nmt.length + 2 * suffix.length + 16))]
    rw [Cli.parseLoop_scan_name nmt (nmt.length + 2 * suffix.length + 16) _
      (c :: '$' :: '{' :: '}' :: suffix) rfl rfl hrest]
    have hnmt : nmt ≠ [] := by
      intro hh
      rw [hh] at hmark
      exact hmark rfl
    have hnmtE : nmt.isEmpty = false := by
      cases nmt with
      | nil => exact absurd rfl hnmt
      | cons x xs => rfl
    exact Cli.parseLoop_after_name (nmt.length + 2 * suffix.length + 12) _ c suffix
      rfl rfl hc rfl hnmtE
  · rw [Cli.parseLoop_start_other (nmt.length + (nmt.length + 2 * suffix.length + 16))
      a _ ha]
    rw [Cli.parseLoop_scan_name nmt (nmt.length + 2 * suffix.length + 16) _
      (c :: '$' :: '{' :: '}' :: suffix) rfl rfl hrest]
    exact Cli.parseLoop_after_name (nmt.length + 2 * suffix.length + 12) _ c suffix
      rfl rfl hc rfl rfl

open Cli in
/-- Witness for C7 (amended): the command line `echo` followed by the empty
interpolation span is rejected. -/
theorem C7_witness :
    Cli.parse ("echo $".toList ++ ['{', '}']) =
      .error "interpolated value cannot be empty" :=
  C7_empty_interpolation_rejected ("echo $".toList ++ ['{', '}'])
    "echo".toList ' ' [] (by decide) (by decide) (by decide) (by decide) (by decide)

open Cli in
/-- Witness for C8 (amended): a marker followed by whitespace and a normal
argument fails with the empty-name error. -/
theorem C8_witness :
    Cli.parse "_ x".toList = .error "Action must have a name" :=
  C8_empty_name_error "_ x".toList ' ' ['x'] (by decide) (by decide)
